import Mathlib

/-!
Shallow embedding of the Data Vault 2.1 CSV exporter
(`src/webview/csvExporter.ts`, class `CSVExporter`).

Strings are Lean `String`s; all character-level operations of the source
(`toUpperCase`, `split`, `includes`, regex prefix/suffix strips, the
quote-doubling regex replace) are modelled over `String.data` so that every
definition evaluates inside the kernel.  JavaScript truthiness of optional
string fields (`undefined`, `null`, `''` are falsy) is modelled by
`falsyStr` / `truthyOr`.  Code that can throw (access of `.replace` /
`.includes` on `undefined`) is modelled with `Option`: `none` is a thrown
`TypeError`.  The in-place assignment `hashdiff.hashkey = ...` performed by
`exportStandardSatellite` is modelled by returning the updated table list
alongside the produced CSV text.
-/

/-- `interface BusinessKeyGroup` of the source. -/
structure BusinessKeyGroup where
  hashkeyName : String
  businessConcept : Option String := none
  columns : List String
  order : Nat := 0
  isLink : Bool := false
  referencedHashkeys : List String := []
  deriving DecidableEq

/-- `interface ColumnMetadata` of the source.  The duck-typed fields
`data_type` / `is_nullable` read by `exportInformationSchemaFormat` through
an `any` cast are carried as optional fields. -/
structure ColumnMetadata where
  schema : String := ""
  table : String := ""
  column : String
  type : String := ""
  order : Nat := 0
  isBusinessKey : Bool := false
  businessKeyGroup : Option String := none
  hashkeyName : Option String := none
  isHashkey : Bool := false
  isHashdiff : Bool := false
  hashdiffName : Option String := none
  isPayload : Bool := false
  isRecordSource : Bool := false
  isLoadDate : Bool := false
  data_type : Option String := none
  is_nullable : Option String := none
  deriving DecidableEq

/-- One element of the duck-typed `hashdiffGroups: any[]` array, with the
fields the exporters read (`name`, `concept`, `hashkey`, `mode`,
`excludedColumns`, `includedColumns`).  Every field is optional because the
source accesses them on `any` values. -/
structure HashdiffGroup where
  name : Option String := none
  concept : Option String := none
  hashkey : Option String := none
  mode : Option String := none
  excludedColumns : Option (List String) := none
  includedColumns : Option (List String) := none
  deriving DecidableEq

/-- `interface TableMetadata` of the source.  An absent `businessKeyGroups`
or `hashdiffGroups` array behaves exactly like an empty one in every
exporter, so both are plain lists. -/
structure TableMetadata where
  schema : String
  table : String
  businessConcept : Option String := none
  businessKeyGroups : List BusinessKeyGroup := []
  hashdiffGroups : List HashdiffGroup := []
  createSatellite : Bool := false
  columns : List ColumnMetadata := []
  deriving DecidableEq

/-- JavaScript truthiness of an optional string: `undefined`/`''` are falsy. -/
def falsyStr (o : Option String) : Bool :=
  match o with
  | none => true
  | some s => s = ""

/-- `o || d` for an optional string operand. -/
def truthyOr (o : Option String) (d : String) : String :=
  match o with
  | some s => if s = "" then d else s
  | none => d

/-- `s || d` for a plain string operand. -/
def truthyStrOr (s d : String) : String := if s = "" then d else s

/-- `s.toUpperCase()` (character-wise, kernel-evaluable). -/
def upperStr (s : String) : String := String.mk (s.data.map Char.toUpper)

/-- `s.toLowerCase()` (character-wise, kernel-evaluable). -/
def lowerStr (s : String) : String := String.mk (s.data.map Char.toLower)

/-- `s.includes(c)` for a single character. -/
def strHasChar (s : String) (c : Char) : Bool := s.data.contains c

/-- `s.split('_')` (single-character separator; `''.split('_')` is `['']`). -/
def splitUnderscore (s : String) : List String :=
  (s.data.splitOn '_').map String.mk

/-- `s.replace(/^tok/, '')` for a literal, case-sensitive token. -/
def dropLeadChars (tok : List Char) (s : String) : String :=
  if s.data.take tok.length = tok then String.mk (s.data.drop tok.length) else s

/-- `s.replace(/tok$/, '')` for a literal, case-sensitive token. -/
def dropTrailChars (tok : List Char) (s : String) : String :=
  if tok.isSuffixOf s.data then String.mk (s.data.take (s.data.length - tok.length)) else s

/-- `tableName.replace(/^(stg_|rv_|hub_)/i, '')`: strip one known,
case-insensitive staging table name lead token. -/
def cleanTableName (s : String) : String :=
  if (s.data.take 4).map Char.toLower = ['s', 't', 'g', '_'] then String.mk (s.data.drop 4)
  else if (s.data.take 3).map Char.toLower = ['r', 'v', '_'] then String.mk (s.data.drop 3)
  else if (s.data.take 4).map Char.toLower = ['h', 'u', 'b', '_'] then String.mk (s.data.drop 4)
  else s

/-- `CSVExporter.generateHubName`. -/
def generateHubName (tableName : String) (businessConcept : Option String) : String :=
  if falsyStr businessConcept then
    let cleaned := cleanTableName tableName
    let base := truthyStrOr ((splitUnderscore cleaned).headD "") cleaned
    base ++ "_h"
  else
    lowerStr (businessConcept.getD "") ++ "_h"

/-- `CSVExporter.extractSourceSystem`. -/
def extractSourceSystem (schema : String) (_table : String) : String :=
  truthyStrOr (upperStr schema) "DEFAULT"

/-- `CSVExporter.extractSourceObject`. -/
def extractSourceObject (_schema : String) (table : String) : String :=
  truthyStrOr (upperStr ((splitUnderscore table).headD "")) "DEFAULT"

/-- `CSVExporter.extractGroupName`. -/
def extractGroupName (schema : String) : String :=
  truthyStrOr (upperStr schema) "DEFAULT"

/-- The `${sourceSystem}_${sourceObject}_${table.table}` identifier built by
every exporter. -/
def sourceTableIdentifier (t : TableMetadata) : String :=
  extractSourceSystem t.schema t.table ++ "_" ++ extractSourceObject t.schema t.table
    ++ "_" ++ t.table

/-- `stringCell.replace(/"/g, '""')`: double every internal double quote. -/
def doubleQuotes (s : String) : String :=
  String.mk (s.data.flatMap (fun c => if c = '"' then ['"', '"'] else [c]))

/-- Per-cell escaping step of `CSVExporter.arrayToCSV`. -/
def escapeCSVCell (s : String) : String :=
  if strHasChar s ',' || strHasChar s '"' || strHasChar s '\n' then
    "\"" ++ doubleQuotes s ++ "\""
  else s

/-- `CSVExporter.arrayToCSV`. -/
def arrayToCSV (data : List (List String)) : String :=
  String.intercalate "\n" (data.map (fun row => String.intercalate "," (row.map escapeCSVCell)))

/-! ### Source registrar (`exportSourceData`) -/

def sourceDataHeaders : List String :=
  ["Source_System", "Source_Object", "Source_Schema_Physical_Name",
   "Source_Table_Physical_Name", "Source_Table_Identifier", "Record_Source_Column",
   "Load_Date_Column", "Group_Name", "Static_Part_of_Record_Source_Column"]

/-- `table.columns.find(c => c.isRecordSource)?.column || ''`. -/
def recordSourceColOf (t : TableMetadata) : String :=
  ((t.columns.find? (fun c => c.isRecordSource)).map (fun c => c.column)).getD ""

/-- `table.columns.find(c => c.isLoadDate)?.column || ''`. -/
def loadDateColOf (t : TableMetadata) : String :=
  ((t.columns.find? (fun c => c.isLoadDate)).map (fun c => c.column)).getD ""

def sourceDataRow (t : TableMetadata) : List String :=
  let sourceSystem := extractSourceSystem t.schema t.table
  let sourceObject := extractSourceObject t.schema t.table
  [sourceSystem, sourceObject, t.schema, t.table,
   sourceSystem ++ "_" ++ sourceObject ++ "_" ++ t.table,
   recordSourceColOf t, loadDateColOf t, extractGroupName t.schema, upperStr sourceSystem]

/-- `CSVExporter.exportSourceData`. -/
def exportSourceData (tables : List TableMetadata) : String :=
  arrayToCSV (sourceDataHeaders :: tables.map sourceDataRow)

/-! ### Hub compiler (`exportStandardHub`) -/

def hubHeaders : List String :=
  ["Hub_Identifier", "Target_Hub_table_physical_name", "Source_Table_Identifier",
   "Source_Column_Physical_Name", "Business_Key_Physical_Name", "Target_Column_Sort_Order",
   "Target_Primary_Key_Physical_Name", "Record_Tracking_Satellite", "Is_Primary_Source",
   "Group_Name"]

/-- Rows contributed by one non-link business key group (`groupIndex` is the
group's index among the table's non-link groups). -/
def hubGroupRows (t : TableMetadata) (group : BusinessKeyGroup) (groupIndex : Nat) :
    List (List String) :=
  let hubName := generateHubName t.table t.businessConcept
  let hubIdentifier := "H_" ++ hubName
  let hashkey := truthyStrOr group.hashkeyName ("hk_" ++ hubName)
  let sourceIdentifier := sourceTableIdentifier t
  group.columns.enum.map (fun p =>
    [hubIdentifier, hubName, sourceIdentifier, p.2, p.2, toString (p.1 + 1), hashkey, "",
     if groupIndex = 0 ∧ p.1 = 0 then "1" else "0", extractGroupName t.schema])

/-- The backward-compatibility path taken when a table has no business key
groups: every column flagged `isBusinessKey` forms one implicit group. -/
def legacyHubRows (t : TableMetadata) : List (List String) :=
  let businessKeys := t.columns.filter (fun c => c.isBusinessKey)
  match businessKeys with
  | [] => []
  | bk0 :: _ =>
    let hubName := generateHubName t.table t.businessConcept
    let hubIdentifier := "H_" ++ hubName
    let hashkey := truthyOr bk0.hashkeyName ("hk_" ++ hubName)
    let sourceIdentifier := sourceTableIdentifier t
    businessKeys.enum.map (fun p =>
      [hubIdentifier, hubName, sourceIdentifier, p.2.column, p.2.column,
       toString (if p.2.order = 0 then p.1 + 1 else p.2.order), hashkey, "",
       if p.1 = 0 then "1" else "0", extractGroupName t.schema])

def hubRowsForTable (t : TableMetadata) : List (List String) :=
  if t.businessKeyGroups ≠ [] then
    ((t.businessKeyGroups.filter (fun g => !g.isLink)).enum).flatMap
      (fun p => hubGroupRows t p.2 p.1)
  else
    legacyHubRows t

/-- `CSVExporter.exportStandardHub`. -/
def exportStandardHub (tables : List TableMetadata) : String :=
  arrayToCSV (hubHeaders :: tables.flatMap hubRowsForTable)

/-! ### Link compiler (`exportStandardLink`) -/

def linkHeaders : List String :=
  ["Link_Identifier", "Target_link_table_physical_name", "Source_Table_Identifier",
   "Source_Column_Physical_Name", "Hub_Identifier", "Hub_primary_key_physical_name",
   "Target_column_physical_name", "Target_Primary_Key_Physical_Name", "Group_Name"]

/-- The `tables.forEach` scan resolving a referenced hashkey name: each table
with a matching non-link group overwrites the accumulator, so the result comes
from the last matching table (within one table, `find` takes the first
matching group).  Returns `(hubIdentifier, hubName, hashkeyColumns)`, with
`("", "", [])` when nothing matches. -/
def resolveLinkRefStep (refHashkey : String) (acc : String × String × List String)
    (t : TableMetadata) : String × String × List String :=
  match t.businessKeyGroups.find? (fun g => !g.isLink && g.hashkeyName == refHashkey) with
  | some matchingGroup =>
    let hubName := generateHubName t.table t.businessConcept
    ("H_" ++ hubName, hubName, matchingGroup.columns)
  | none => acc

def resolveLinkRef (tables : List TableMetadata) (refHashkey : String) :
    String × String × List String :=
  tables.foldl (resolveLinkRefStep refHashkey) ("", "", [])

/-- Rows contributed by one entry of a link group's `referencedHashkeys`. -/
def linkRefRows (tables : List TableMetadata) (t : TableMetadata)
    (linkGroup : BusinessKeyGroup) (linkName linkIdentifier sourceIdentifier : String)
    (refHashkey : String) : List (List String) :=
  let r := resolveLinkRef tables refHashkey
  let hubIdentifier := r.1
  let hashkeyColumns := r.2.2
  if hubIdentifier ≠ "" ∧ hashkeyColumns ≠ [] then
    hashkeyColumns.map (fun col =>
      [linkIdentifier, linkName, sourceIdentifier, col, hubIdentifier, refHashkey, col,
       truthyStrOr linkGroup.hashkeyName linkName, extractGroupName t.schema])
  else if hubIdentifier ≠ "" then
    [[linkIdentifier, linkName, sourceIdentifier, "", hubIdentifier, refHashkey, "",
      truthyStrOr linkGroup.hashkeyName linkName, extractGroupName t.schema]]
  else
    []

def linkGroupRows (tables : List TableMetadata) (t : TableMetadata)
    (linkGroup : BusinessKeyGroup) (linkIndex : Nat) : List (List String) :=
  let linkName := truthyStrOr linkGroup.hashkeyName
    ("lk_" ++ t.table ++ "_" ++ toString (linkIndex + 1))
  let linkIdentifier := "L_" ++ linkName
  let src := sourceTableIdentifier t
  linkGroup.referencedHashkeys.flatMap (linkRefRows tables t linkGroup linkName linkIdentifier src)

def linkRowsForTable (tables : List TableMetadata) (t : TableMetadata) : List (List String) :=
  ((t.businessKeyGroups.filter (fun g => g.isLink)).enum).flatMap
    (fun p => linkGroupRows tables t p.2 p.1)

/-- `CSVExporter.exportStandardLink`. -/
def exportStandardLink (tables : List TableMetadata) : String :=
  arrayToCSV (linkHeaders :: tables.flatMap (linkRowsForTable tables))

/-! ### Satellite compiler (`exportStandardSatellite`) -/

def satelliteHeaders : List String :=
  ["Satellite_Identifier", "Target_Satellite_Table_Physical_Name", "Source_Table_Identifier",
   "Source_Column_Physical_Name", "Parent_Identifier", "Parent_Primary_Key_Physical_Name",
   "Target_Column_Physical_Name", "Target_Column_Sort_Order", "Group_Name"]

/-- All column names of all business key groups of a table (the
`businessKeyColumns` set). -/
def businessKeyColumnsOf (t : TableMetadata) : List String :=
  t.businessKeyGroups.flatMap (fun g => g.columns)

/-- The per-group `forEach` that assigns `hashdiff.hashkey = group.hashkeyName`
for every non-link group whose concept matches: the last match survives. -/
def resolveHashkeyFromConcept (t : TableMetadata) (hd : HashdiffGroup) : Option String :=
  t.businessKeyGroups.foldl (fun acc g =>
    if g.isLink = false ∧ g.businessConcept = hd.concept ∧ g.hashkeyName ≠ "" then
      some g.hashkeyName
    else acc) none

/-- The hashdiff group after the hashkey auto-resolution step (the source
mutates `hashdiff.hashkey` in place; here the updated record is returned). -/
def resolveHashdiffHashkey (t : TableMetadata) (hd : HashdiffGroup) : HashdiffGroup :=
  if falsyStr hd.hashkey then
    match resolveHashkeyFromConcept t hd with
    | some hk => { hd with hashkey := some hk }
    | none => hd
  else hd

/-- `if (acc.has s) acc else acc.add s`: JS `Set` insertion keeps first
occurrences in insertion order. -/
def insertUnique (acc : List String) (s : String) : List String :=
  if acc.contains s then acc else acc ++ [s]

/-- The `hashdiffColumns` set of one hashdiff group, in insertion order. -/
def hashdiffMemberColumns (t : TableMetadata) (hd : HashdiffGroup) : List String :=
  let mode := truthyOr hd.mode "select_all"
  let excludedColumns := hd.excludedColumns.getD []
  let includedColumns := hd.includedColumns.getD []
  if mode = "select_all" then
    t.columns.foldl (fun acc col =>
      if ¬ excludedColumns.contains col.column
          ∧ ¬ (businessKeyColumnsOf t).contains col.column
          ∧ col.column ≠ recordSourceColOf t
          ∧ col.column ≠ loadDateColOf t then
        insertUnique acc col.column
      else acc) []
  else
    includedColumns.foldl insertUnique []

/-- `hashkey.replace(/^hk_/, '').replace(/_h$/, '')`. -/
def stripHkH (s : String) : String :=
  dropTrailChars ['_', 'h'] (dropLeadChars ['h', 'k', '_'] s)

/-- `name.replace(/^hd_/, '').replace(/_sat$/, '')`. -/
def stripHdSat (s : String) : String :=
  dropTrailChars ['_', 's', 'a', 't'] (dropLeadChars ['h', 'd', '_'] s)

/-- The `Array.from(hashdiffColumns).forEach` row loop: one row per member
column that exists in `table.columns`, with `String(col.order || index + 1)`
as the sort order. -/
def satGroupRows (t : TableMetadata)
    (satelliteIdentifier satelliteName sourceIdentifier parentIdentifier parentHashkey : String)
    (members : List String) : List (List String) :=
  members.enum.filterMap (fun p =>
    (t.columns.find? (fun c => c.column == p.2)).map (fun col =>
      [satelliteIdentifier, satelliteName, sourceIdentifier, col.column, parentIdentifier,
       parentHashkey, col.column, toString (if col.order = 0 then p.1 + 1 else col.order),
       extractGroupName t.schema]))

/-- Processing of one hashdiff group: `none` models the `TypeError` thrown by
`hashdiff.name.replace` when `name` is `undefined`; otherwise the produced
rows together with the (possibly mutated) group are returned. -/
def processHashdiff (t : TableMetadata) (hd : HashdiffGroup) :
    Option (List (List String) × HashdiffGroup) :=
  if falsyStr hd.concept then some ([], hd)
  else
    let hd2 := resolveHashdiffHashkey t hd
    if falsyStr hd2.hashkey then some ([], hd2)
    else
      let hashkey := hd2.hashkey.getD ""
      let members := hashdiffMemberColumns t hd2
      if members = [] then some ([], hd2)
      else
        match hd2.name with
        | none => none
        | some nm =>
          let hubName := stripHkH hashkey
          let satelliteName := stripHdSat nm
          some (satGroupRows t ("S_" ++ satelliteName) satelliteName (sourceTableIdentifier t)
            ("H_" ++ hubName) hashkey members, hd2)

def processHashdiffList (t : TableMetadata) :
    List HashdiffGroup → Option (List (List String) × List HashdiffGroup)
  | [] => some ([], [])
  | hd :: rest =>
    match processHashdiff t hd with
    | none => none
    | some (rows, hd2) =>
      match processHashdiffList t rest with
      | none => none
      | some (rrows, rest2) => some (rows ++ rrows, hd2 :: rest2)

def satRowsForTable (t : TableMetadata) :
    Option (List (List String) × TableMetadata) :=
  if t.hashdiffGroups = [] then some ([], t)
  else
    match processHashdiffList t t.hashdiffGroups with
    | none => none
    | some (rows, hds2) => some (rows, { t with hashdiffGroups := hds2 })

def satProcessTables : List TableMetadata → Option (List (List String) × List TableMetadata)
  | [] => some ([], [])
  | t :: ts =>
    match satRowsForTable t with
    | none => none
    | some (rows, t2) =>
      match satProcessTables ts with
      | none => none
      | some (rrows, ts2) => some (rows ++ rrows, t2 :: ts2)

/-- `CSVExporter.exportStandardSatellite`: the CSV text together with the
input table list as left behind by the in-place hashkey assignments; `none`
models a thrown `TypeError`. -/
def exportStandardSatellite (tables : List TableMetadata) :
    Option (String × List TableMetadata) :=
  (satProcessTables tables).map (fun p => (arrayToCSV (satelliteHeaders :: p.1), p.2))

/-! ### Denormalized export (`exportInformationSchemaFormat`) -/

def infoSchemaHeaders : List String :=
  ["table_catalog", "table_schema", "table_name", "column_name", "ordinal_position",
   "data_type", "is_nullable", "business_concept", "hub_hashkey", "link_hashkey",
   "hashdiff_names", "is_record_source", "is_load_date", "create_satellite"]

def hexDigitChar (n : Nat) : Char :=
  if n < 10 then Char.ofNat (48 + n) else Char.ofNat (87 + n)

/-- Escaping of one character inside `JSON.stringify` string output. -/
def jsonEscapeChar (c : Char) : List Char :=
  if c = '"' then ['\\', '"']
  else if c = '\\' then ['\\', '\\']
  else if c = '\n' then ['\\', 'n']
  else if c = '\r' then ['\\', 'r']
  else if c = '\t' then ['\\', 't']
  else if c = Char.ofNat 8 then ['\\', 'b']
  else if c = Char.ofNat 12 then ['\\', 'f']
  else if c.toNat < 32 then
    ['\\', 'u', '0', '0', hexDigitChar (c.toNat / 16), hexDigitChar (c.toNat % 16)]
  else [c]

def jsonStringOf (s : String) : String :=
  "\"" ++ String.mk (s.data.flatMap jsonEscapeChar) ++ "\""

/-- `JSON.stringify` of one array element (`undefined` renders as `null`). -/
def jsonValueOf : Option String → String
  | none => "null"
  | some s => jsonStringOf s

/-- `JSON.stringify` of an array of strings / `undefined`s. -/
def jsonArrayOf (l : List (Option String)) : String :=
  "[" ++ String.intercalate "," (l.map jsonValueOf) ++ "]"

/-- The per-column `hubHashkey` / `linkHashkey` accumulation (later groups
containing the column overwrite earlier ones, per kind). -/
def infoHashkeysFor (t : TableMetadata) (colName : String) : String × String :=
  t.businessKeyGroups.foldl (fun acc g =>
    if g.columns.contains colName then
      if g.isLink then (acc.1, g.hashkeyName) else (g.hashkeyName, acc.2)
    else acc) ("", "")

/-- The `columnHashdiffs` accumulation for one column: `none` models the
`TypeError` thrown when `diff.excludedColumns` (in strict `select_all` mode)
or `diff.includedColumns` (otherwise) is `undefined`. -/
def columnHashdiffs : List HashdiffGroup → String → Option (List (Option String))
  | [], _ => some []
  | d :: rest, colName =>
    let keep : Option Bool :=
      if d.mode = some "select_all" then
        d.excludedColumns.map (fun ex => !ex.contains colName)
      else
        d.includedColumns.map (fun inc => inc.contains colName)
    match keep, columnHashdiffs rest colName with
    | some b, some r => some (if b then d.name :: r else r)
    | _, _ => none

def infoSchemaRowFor (t : TableMetadata) (col : ColumnMetadata) : Option (List String) :=
  (columnHashdiffs t.hashdiffGroups col.column).map (fun columnHashdiffNames =>
    let hk := infoHashkeysFor t col.column
    ["default", t.schema, t.table, col.column, toString col.order,
     truthyOr col.data_type "", truthyOr col.is_nullable "YES",
     truthyOr t.businessConcept "", hk.1, hk.2,
     if columnHashdiffNames.length > 0 then jsonArrayOf columnHashdiffNames else "",
     if col.isRecordSource then "true" else "false",
     if col.isLoadDate then "true" else "false",
     if t.createSatellite then "true" else "false"])

def infoRowsForTable (t : TableMetadata) : Option (List (List String)) :=
  t.columns.mapM (infoSchemaRowFor t)

/-- `CSVExporter.exportInformationSchemaFormat`; `none` models a thrown
`TypeError`. -/
def exportInformationSchemaFormat (tables : List TableMetadata) : Option String :=
  (tables.mapM infoRowsForTable).map (fun rss =>
    arrayToCSV (infoSchemaHeaders :: rss.flatMap (fun r => r)))

/-! ### Concrete inputs used to instantiate the theorems -/

/-- Two tables both declaring the hashkey name `hk_x` (first with column `a`,
second with column `b`) plus a link table referencing `hk_x`. -/
def dupTableA : TableMetadata :=
  { schema := "s", table := "u1",
    businessKeyGroups := [{ hashkeyName := "hk_x", columns := ["a"] }] }

def dupTableB : TableMetadata :=
  { schema := "s", table := "u2",
    businessKeyGroups := [{ hashkeyName := "hk_x", columns := ["b"] }] }

def dupLinkTable : TableMetadata :=
  { schema := "s", table := "lnk",
    businessKeyGroups := [{ hashkeyName := "lk_1", columns := [], isLink := true,
                            referencedHashkeys := ["hk_x"] }] }

def dupTables : List TableMetadata := [dupTableA, dupTableB, dupLinkTable]

/-- A link table whose only reference names a hashkey no table declares. -/
def ghostLinkTable : TableMetadata :=
  { schema := "s", table := "lnk",
    businessKeyGroups := [{ hashkeyName := "lk_1", columns := [], isLink := true,
                            referencedHashkeys := ["hk_ghost"] }] }

/-- A hub table whose only group has an empty column list, plus a link table
referencing it. -/
def emptyHubTable : TableMetadata :=
  { schema := "s", table := "u3",
    businessKeyGroups := [{ hashkeyName := "hk_e", columns := [] }] }

def emptyRefLinkTable : TableMetadata :=
  { schema := "s", table := "lnk",
    businessKeyGroups := [{ hashkeyName := "lk_1", columns := [], isLink := true,
                            referencedHashkeys := ["hk_e"] }] }

/-- A table whose first non-link group is empty while the second carries a
column. -/
def emptyFirstGroupTable : TableMetadata :=
  { schema := "s", table := "t5",
    businessKeyGroups := [{ hashkeyName := "hk_e", columns := [] },
                          { hashkeyName := "hk_f", columns := ["a"] }] }

/-- A table whose hashdiff group has no hashkey but a resolvable concept: the
exporter writes the resolved hashkey into the group. -/
def mutationTable : TableMetadata :=
  { schema := "s", table := "t8",
    businessKeyGroups := [{ hashkeyName := "hk_c_h", businessConcept := some "C",
                            columns := ["id"] }],
    hashdiffGroups := [{ concept := some "C", mode := some "select_explicit",
                         includedColumns := some [] }],
    columns := [{ column := "id" }] }

/-- `mutationTable` as left behind by the satellite exporter. -/
def mutationTableAfter : TableMetadata :=
  { mutationTable with
      hashdiffGroups := [{ concept := some "C", hashkey := some "hk_c_h",
                           mode := some "select_explicit", includedColumns := some [] }] }

/-- A table whose accepted hashdiff group lacks a `name`: the exporter throws. -/
def missingNameTable : TableMetadata :=
  { schema := "s", table := "t10",
    hashdiffGroups := [{ concept := some "C", hashkey := some "hk_c" }],
    columns := [{ column := "x" }] }

/-- A `select_explicit` hashdiff whose inclusion list reverses the table's
column order. -/
def explicitOrderHd : HashdiffGroup :=
  { name := some "hd1", concept := some "C", hashkey := some "hk_c",
    mode := some "select_explicit", includedColumns := some ["b", "a"] }

def explicitOrderTable : TableMetadata :=
  { schema := "s", table := "t4",
    hashdiffGroups := [explicitOrderHd],
    columns := [{ column := "a" }, { column := "b" }] }

/-- A table whose business key column `id` is not in the hashdiff's exclusion
list: the satellite excludes it, the denormalized export lists it. -/
def bkLeakHd : HashdiffGroup :=
  { name := some "hd1", concept := some "C", hashkey := some "hk_t",
    mode := some "select_all", excludedColumns := some [], includedColumns := some [] }

def bkLeakTable : TableMetadata :=
  { schema := "s", table := "t7",
    businessKeyGroups := [{ hashkeyName := "hk_t", columns := ["id"] }],
    hashdiffGroups := [bkLeakHd],
    columns := [{ column := "id" }, { column := "x" }] }

/-- A well-formed group (hashkey and name set) used to witness the frame and
totality theorems. -/
def wellFormedSatTable : TableMetadata :=
  { schema := "s", table := "w8",
    hashdiffGroups := [{ name := some "hd_w", concept := some "C", hashkey := some "hk_w",
                         mode := some "select_explicit", includedColumns := some ["x"] }],
    columns := [{ column := "x" }] }

/-! ## Theorems -/

set_option maxRecDepth 100000

/-- C1: for every table and every non-link business key group (at index
`groupIndex` among the table's non-link groups), the hub compiler emits
exactly one row per column of the group, in group order, whose
`Target_Column_Sort_Order` cell is the column's 1-based position within the
group; the rows do not depend on the table's column list (hence not on the
columns' ordinal positions). -/
theorem hub_group_order_preservation :
    ∀ (t : TableMetadata) (g : BusinessKeyGroup) (groupIndex : Nat),
      (hubGroupRows t g groupIndex).length = g.columns.length
    ∧ ((hubGroupRows t g groupIndex).map (fun r => (r.getD 3 "", r.getD 5 ""))
        = g.columns.enum.map (fun p => (p.2, toString (p.1 + 1))))
    ∧ (∀ cols', hubGroupRows { t with columns := cols' } g groupIndex
          = hubGroupRows t g groupIndex) := by
  intro t g groupIndex
  refine ⟨by simp [hubGroupRows], ?_, fun cols' => rfl⟩
  simp only [hubGroupRows, List.map_map]
  rfl

/-- C9: the serializer joins fields with commas and rows with single newlines
(no trailing delimiter); a field without comma, double quote or newline is
emitted verbatim; a field containing one is wrapped in double quotes with
internal double quotes doubled; the function is total over all row sets, and
`He said "hi", ok` serializes to `"He said ""hi"", ok"`. -/
theorem csv_serialization_rule :
    (∀ data : List (List String),
      arrayToCSV data
        = String.intercalate "\n"
            (data.map (fun row => String.intercalate "," (row.map escapeCSVCell))))
  ∧ (∀ s : String,
      (strHasChar s ',' || strHasChar s '"' || strHasChar s '\n') = false →
      escapeCSVCell s = s)
  ∧ (∀ s : String,
      (strHasChar s ',' || strHasChar s '"' || strHasChar s '\n') = true →
      escapeCSVCell s = "\"" ++ doubleQuotes s ++ "\"")
  ∧ (∀ s : String,
      doubleQuotes s
        = String.mk (s.data.flatMap (fun c => if c = '"' then ['"', '"'] else [c])))
  ∧ escapeCSVCell "He said \"hi\", ok" = "\"He said \"\"hi\"\", ok\"" := by
  refine ⟨fun _ => rfl, fun s h => ?_, fun s h => ?_, fun _ => rfl, by decide⟩
  · simp [escapeCSVCell, h]
  · simp [escapeCSVCell, h]

/-- Witness for C9 at concrete fields. -/
theorem csv_serialization_rule_witness :
    escapeCSVCell "plain" = "plain"
  ∧ escapeCSVCell "a,b" = "\"" ++ doubleQuotes "a,b" ++ "\"" :=
  ⟨csv_serialization_rule.2.1 "plain" (by decide),
   csv_serialization_rule.2.2.1 "a,b" (by decide)⟩

/-- When no table of `post` has a matching non-link group, the resolution
fold leaves the accumulator untouched. -/
theorem resolveLinkRef_foldl_no_match (ref : String) :
    ∀ (post : List TableMetadata) (acc : String × String × List String),
      (∀ t' ∈ post,
        t'.businessKeyGroups.find? (fun g => !g.isLink && g.hashkeyName == ref) = none) →
      post.foldl (resolveLinkRefStep ref) acc = acc := by
  intro post
  induction post with
  | nil => intro acc _; rfl
  | cons t ts ih =>
    intro acc h
    have ht : t.businessKeyGroups.find? (fun g => !g.isLink && g.hashkeyName == ref) = none :=
      h t (List.mem_cons_self t ts)
    have hts := fun t' ht' => h t' (List.mem_cons_of_mem t ht')
    simp only [List.foldl_cons, resolveLinkRefStep, ht]
    exact ih acc hts

/-- C2 (amended): the cross-table resolution scan is last-match-wins over
tables: the values used come from the last table that has a matching
non-link group, and within that table from its first matching group in
group order. -/
theorem link_resolution_last_match :
    ∀ (pre post : List TableMetadata) (t : TableMetadata) (ref : String)
      (g : BusinessKeyGroup),
      t.businessKeyGroups.find? (fun g' => !g'.isLink && g'.hashkeyName == ref) = some g →
      (∀ t' ∈ post,
        t'.businessKeyGroups.find? (fun g' => !g'.isLink && g'.hashkeyName == ref) = none) →
      resolveLinkRef (pre ++ t :: post) ref
        = ("H_" ++ generateHubName t.table t.businessConcept,
           generateHubName t.table t.businessConcept, g.columns) := by
  intro pre post t ref g hfind hpost
  unfold resolveLinkRef
  rw [List.foldl_append, List.foldl_cons]
  rw [show resolveLinkRefStep ref (List.foldl (resolveLinkRefStep ref) ("", "", []) pre) t
        = ("H_" ++ generateHubName t.table t.businessConcept,
           generateHubName t.table t.businessConcept, g.columns) by
    simp [resolveLinkRefStep, hfind]]
  exact resolveLinkRef_foldl_no_match ref post _ hpost

/-- Witness for C2 (amended): with `hk_x` declared by both `dupTableA` and
`dupTableB`, the resolution yields `dupTableB`'s hub and columns. -/
theorem link_resolution_last_match_witness :
    resolveLinkRef [dupTableA, dupTableB] "hk_x" = ("H_u2_h", "u2_h", ["b"]) := by
  have h := link_resolution_last_match [dupTableA] [] dupTableB "hk_x"
    { hashkeyName := "hk_x", columns := ["b"] } (by decide)
    (by intro t' ht'; cases ht')
  simpa using h

/-- C2 (counterexample): the first matching table `dupTableA` carries column
list `["a"]`, but the emitted link rows use `dupTableB`'s hub (`H_u2_h`) and
column `b`, so the first match is not the one used. -/
theorem link_resolution_first_match_cex :
    (dupTables.head?.map (fun t =>
        t.businessKeyGroups.find? (fun g => !g.isLink && g.hashkeyName == "hk_x"))
      = some (some { hashkeyName := "hk_x", columns := ["a"] }))
  ∧ linkRowsForTable dupTables dupLinkTable
      = [["L_lk_1", "lk_1", "S_LNK_lnk", "b", "H_u2_h", "hk_x", "b", "lk_1", "S"]]
  ∧ ("b" : String) ≠ "a" ∧ ("H_u2_h" : String) ≠ "H_u1_h" := by
  refine ⟨by decide, by decide, by decide, by decide⟩

/-- C6 (counterexample): `ghostLinkTable`'s link group references `hk_ghost`,
which no table declares; the full-mode exporter emits no row at all for the
reference (the claim demands exactly one blank row). -/
theorem link_unresolved_reference_cex :
    ((ghostLinkTable.businessKeyGroups.map (fun g => g.referencedHashkeys))
        = [["hk_ghost"]])
  ∧ resolveLinkRef [ghostLinkTable] "hk_ghost" = ("", "", [])
  ∧ linkRowsForTable [ghostLinkTable] ghostLinkTable = []
  ∧ exportStandardLink [ghostLinkTable] = arrayToCSV [linkHeaders] := by
  refine ⟨by decide, by decide, by decide, by decide⟩

/-- C6 (amended): in the full mode, a referenced hashkey name that resolves
to a group with an empty column list yields exactly one row with blank
source/target column fields; a name that does not resolve to any non-link
group yields no row at all. -/
theorem link_unresolved_reference_policy :
    ∀ (tables : List TableMetadata) (t : TableMetadata) (linkGroup : BusinessKeyGroup)
      (linkName linkIdentifier src ref : String),
      ((resolveLinkRef tables ref).1 = "" →
        linkRefRows tables t linkGroup linkName linkIdentifier src ref = [])
    ∧ ((resolveLinkRef tables ref).1 ≠ "" → (resolveLinkRef tables ref).2.2 = [] →
        linkRefRows tables t linkGroup linkName linkIdentifier src ref
          = [[linkIdentifier, linkName, src, "", (resolveLinkRef tables ref).1, ref, "",
              truthyStrOr linkGroup.hashkeyName linkName, extractGroupName t.schema]]) := by
  intro tables t linkGroup linkName linkIdentifier src ref
  constructor
  · intro h
    simp [linkRefRows, h]
  · intro h1 h2
    simp [linkRefRows, h1, h2]

/-- Witness for C6 (amended): the unresolved reference `hk_ghost` yields no
row; the resolved-but-empty reference `hk_e` yields one blank-column row. -/
theorem link_unresolved_reference_policy_witness :
    linkRefRows [ghostLinkTable] ghostLinkTable
        { hashkeyName := "lk_1", columns := [], isLink := true,
          referencedHashkeys := ["hk_ghost"] } "lk_1" "L_lk_1" "S_LNK_lnk" "hk_ghost" = []
  ∧ linkRefRows [emptyHubTable, emptyRefLinkTable] emptyRefLinkTable
        { hashkeyName := "lk_1", columns := [], isLink := true,
          referencedHashkeys := ["hk_e"] } "lk_1" "L_lk_1" "S_LNK_lnk" "hk_e"
      = [["L_lk_1", "lk_1", "S_LNK_lnk", "", "H_u3_h", "hk_e", "",
          truthyStrOr "lk_1" "lk_1", extractGroupName "s"]] := by
  constructor
  · exact (link_unresolved_reference_policy [ghostLinkTable] ghostLinkTable _
      "lk_1" "L_lk_1" "S_LNK_lnk" "hk_ghost").1 (by decide)
  · have h := (link_unresolved_reference_policy [emptyHubTable, emptyRefLinkTable]
      emptyRefLinkTable
      { hashkeyName := "lk_1", columns := [], isLink := true,
        referencedHashkeys := ["hk_e"] } "lk_1" "L_lk_1" "S_LNK_lnk" "hk_e").2
      (by decide) (by decide)
    rw [h]
    have h2 : (resolveLinkRef [emptyHubTable, emptyRefLinkTable] "hk_e").1 = "H_u3_h" := by decide
    rw [h2]
    rfl

/-- A predicate that is false away from index 0 counts 0 in an `enumFrom`
starting at a positive index. -/
theorem countP_enumFrom_ne_zero {α : Type} (q : Nat × α → Bool)
    (hq : ∀ p : Nat × α, p.1 ≠ 0 → q p = false) :
    ∀ (l : List α) (k : Nat), k ≠ 0 → (l.enumFrom k).countP q = 0 := by
  intro l
  induction l with
  | nil => intro k _; rfl
  | cons a l ih =>
    intro k hk
    rw [List.enumFrom, List.countP_cons, hq (k, a) hk, ih (k + 1) (Nat.succ_ne_zero k)]
    rfl

/-- The `Is_Primary_Source` count of one group's hub rows: `1` exactly for a
nonempty group at index 0, else `0`. -/
theorem hub_primary_flag_count (t : TableMetadata) (g : BusinessKeyGroup) (groupIndex : Nat) :
    (hubGroupRows t g groupIndex).countP (fun r => r.getD 8 "" == "1")
      = if groupIndex = 0 ∧ g.columns ≠ [] then 1 else 0 := by
  simp only [hubGroupRows, List.countP_map]
  have hcomp : ∀ p : Nat × String,
      ((fun r => r.getD 8 "" == "1") ∘ (fun p : Nat × String =>
        ["H_" ++ generateHubName t.table t.businessConcept,
         generateHubName t.table t.businessConcept, sourceTableIdentifier t, p.2, p.2,
         toString (p.1 + 1), truthyStrOr g.hashkeyName ("hk_" ++ generateHubName t.table t.businessConcept), "",
         if groupIndex = 0 ∧ p.1 = 0 then "1" else "0", extractGroupName t.schema])) p
        = decide (groupIndex = 0 ∧ p.1 = 0) := by
    intro p
    by_cases h : groupIndex = 0 ∧ p.1 = 0 <;> simp [h]
  rw [List.countP_congr (fun p _ => by rw [hcomp p])]
  rcases Nat.eq_zero_or_pos groupIndex with h0 | hpos
  · subst h0
    cases hc : g.columns with
    | nil => simp
    | cons c cs =>
      have hrest : ((cs.enumFrom 1).countP (fun p : Nat × String =>
          decide (0 = 0 ∧ p.1 = 0))) = 0 := by
        refine countP_enumFrom_ne_zero _ (fun p hp => ?_) cs 1 one_ne_zero
        simp [hp]
      rw [List.enum, List.enumFrom, List.countP_cons, hrest]
      simp
  · have hne : groupIndex ≠ 0 := Nat.pos_iff_ne_zero.mp hpos
    have hall : ∀ p ∈ g.columns.enum, ¬ (decide (groupIndex = 0 ∧ p.1 = 0) = true) := by
      intro p _
      simp [hne]
    rw [List.countP_eq_zero.mpr hall]
    simp [hne]

/-- Hub groups at positive indices contribute no primary-flagged row. -/
theorem hub_groups_tail_count (t : TableMetadata) :
    ∀ (gs : List BusinessKeyGroup) (k : Nat), k ≠ 0 →
      (((gs.enumFrom k).flatMap (fun p => hubGroupRows t p.2 p.1)).countP
        (fun r => r.getD 8 "" == "1")) = 0 := by
  intro gs
  induction gs with
  | nil => intro k _; rfl
  | cons g gs ih =>
    intro k hk
    rw [List.enumFrom, List.flatMap_cons, List.countP_append, hub_primary_flag_count,
      ih (k + 1) (Nat.succ_ne_zero k)]
    simp [hk]

/-- The `Is_Primary_Source` count of the legacy (flag-driven) hub rows. -/
theorem legacy_hub_primary_flag_count (t : TableMetadata) :
    (legacyHubRows t).countP (fun r => r.getD 8 "" == "1")
      = if t.columns.filter (fun c => c.isBusinessKey) = [] then 0 else 1 := by
  unfold legacyHubRows
  cases hbk : t.columns.filter (fun c => c.isBusinessKey) with
  | nil => simp
  | cons bk0 bks =>
    simp only [hbk, List.countP_map]
    have hcomp : ∀ p : Nat × ColumnMetadata,
        ((fun r : List String => r.getD 8 "" == "1") ∘ (fun p : Nat × ColumnMetadata =>
          ["H_" ++ generateHubName t.table t.businessConcept,
           generateHubName t.table t.businessConcept, sourceTableIdentifier t,
           p.2.column, p.2.column,
           toString (if p.2.order = 0 then p.1 + 1 else p.2.order),
           truthyOr bk0.hashkeyName ("hk_" ++ generateHubName t.table t.businessConcept), "",
           if p.1 = 0 then "1" else "0", extractGroupName t.schema])) p
          = decide (p.1 = 0) := by
      intro p
      by_cases h : p.1 = 0 <;> simp [h]
    rw [List.countP_congr (fun p _ => by rw [hcomp p])]
    have hrest : ((bks.enumFrom 1).countP (fun p : Nat × ColumnMetadata =>
        decide (p.1 = 0))) = 0 := by
      refine countP_enumFrom_ne_zero _ (fun p hp => ?_) bks 1 one_ne_zero
      simp [hp]
    rw [List.enum, List.enumFrom, List.countP_cons, hrest]
    simp

/-- Characterization of the per-table `Is_Primary_Source` count. -/
theorem hub_rows_primary_count (t : TableMetadata) :
    (hubRowsForTable t).countP (fun r => r.getD 8 "" == "1")
      = if t.businessKeyGroups ≠ [] then
          (match t.businessKeyGroups.filter (fun g => !g.isLink) with
           | [] => 0
           | g0 :: _ => if g0.columns ≠ [] then 1 else 0)
        else if t.columns.filter (fun c => c.isBusinessKey) = [] then 0 else 1 := by
  unfold hubRowsForTable
  by_cases hbg : t.businessKeyGroups ≠ []
  · rw [if_pos hbg, if_pos hbg]
    cases hnl : t.businessKeyGroups.filter (fun g => !g.isLink) with
    | nil => rfl
    | cons g0 gs =>
      rw [List.enum, List.enumFrom, List.flatMap_cons, List.countP_append,
        hub_primary_flag_count, hub_groups_tail_count t gs 1 one_ne_zero]
      by_cases hc : g0.columns = [] <;> simp [hc]
  · rw [if_neg hbg, if_neg hbg]
    exact legacy_hub_primary_flag_count t

/-- C5 (amended): at most one hub row per table carries
`Is_Primary_Source = "1"`; the count is exactly one when the group path runs
with a nonempty first non-link group, or when the legacy path runs with at
least one flagged business key column.  (When the first non-link group has an
empty column list, a table can contribute rows with no primary row at all —
see the counterexample.) -/
theorem hub_primary_source_policy :
    ∀ t : TableMetadata,
      (hubRowsForTable t).countP (fun r => r.getD 8 "" == "1") ≤ 1
    ∧ (∀ g0 rest, t.businessKeyGroups ≠ [] →
        t.businessKeyGroups.filter (fun g => !g.isLink) = g0 :: rest →
        g0.columns ≠ [] →
        (hubRowsForTable t).countP (fun r => r.getD 8 "" == "1") = 1)
    ∧ (t.businessKeyGroups = [] →
        t.columns.filter (fun c => c.isBusinessKey) ≠ [] →
        (hubRowsForTable t).countP (fun r => r.getD 8 "" == "1") = 1) := by
  intro t
  refine ⟨?_, ?_, ?_⟩
  · rw [hub_rows_primary_count]
    split
    · split
      · exact Nat.zero_le 1
      · split <;> omega
    · split <;> omega
  · intro g0 rest hbg hnl hc
    rw [hub_rows_primary_count, if_pos hbg, hnl]
    simp [hc]
  · intro hbg hbk
    rw [hub_rows_primary_count, if_neg (by simpa using hbg), if_neg hbk]

/-- Witness for C5 (amended): a one-group, one-column table has exactly one
primary hub row, and so does a flag-driven legacy table. -/
theorem hub_primary_source_policy_witness :
    (hubRowsForTable dupTableA).countP (fun r => r.getD 8 "" == "1") = 1
  ∧ (hubRowsForTable
        { schema := "s", table := "lg", columns := [{ column := "a", isBusinessKey := true }] }).countP
      (fun r => r.getD 8 "" == "1") = 1 := by
  constructor
  · exact (hub_primary_source_policy dupTableA).2.1
      { hashkeyName := "hk_x", columns := ["a"] } [] (by decide) (by decide) (by decide)
  · exact (hub_primary_source_policy
      { schema := "s", table := "lg", columns := [{ column := "a", isBusinessKey := true }] }).2.2
      (by decide) (by decide)

/-- C5 (counterexample): `emptyFirstGroupTable` contributes one hub row, yet
no row of it has `Is_Primary_Source = "1"` (the claim demands exactly one). -/
theorem hub_primary_source_cex :
    hubRowsForTable emptyFirstGroupTable
      = [["H_t5_h", "t5_h", "S_T5_t5", "a", "a", "1", "hk_f", "", "0", "S"]]
  ∧ (hubRowsForTable emptyFirstGroupTable).countP (fun r => r.getD 8 "" == "1") = 0
  ∧ hubRowsForTable emptyFirstGroupTable ≠ [] := by
  refine ⟨by decide, by decide, by decide⟩

/-- Membership in a JS-`Set`-style insertion. -/
theorem mem_insertUnique (acc : List String) (s c : String) :
    c ∈ insertUnique acc s ↔ c ∈ acc ∨ c = s := by
  unfold insertUnique
  by_cases h : acc.contains s
  · rw [if_pos h]
    have hs : s ∈ acc := by simpa using h
    constructor
    · exact Or.inl
    · rintro (hc | rfl)
      · exact hc
      · exact hs
  · rw [if_neg h]
    simp

/-- Membership in the conditional-insert fold used by `select_all` member
computation. -/
theorem mem_foldl_insertUnique_pred {α : Type} (p : α → Prop) [DecidablePred p]
    (f : α → String) :
    ∀ (l : List α) (acc : List String) (c : String),
      c ∈ l.foldl (fun a x => if p x then insertUnique a (f x) else a) acc
        ↔ c ∈ acc ∨ ∃ x ∈ l, p x ∧ f x = c := by
  intro l
  induction l with
  | nil => intro acc c; simp
  | cons x l ih =>
    intro acc c
    rw [List.foldl_cons]
    by_cases hx : p x
    · rw [if_pos hx, ih, mem_insertUnique]
      constructor
      · rintro ((hc | rfl) | ⟨y, hy, hpy, hfy⟩)
        · exact Or.inl hc
        · exact Or.inr ⟨x, List.mem_cons_self x l, hx, rfl⟩
        · exact Or.inr ⟨y, List.mem_cons_of_mem x hy, hpy, hfy⟩
      · rintro (hc | ⟨y, hy, hpy, hfy⟩)
        · exact Or.inl (Or.inl hc)
        · rcases List.mem_cons.mp hy with rfl | hy'
          · exact Or.inl (Or.inr hfy.symm)
          · exact Or.inr ⟨y, hy', hpy, hfy⟩
    · rw [if_neg hx, ih]
      constructor
      · rintro (hc | ⟨y, hy, hpy, hfy⟩)
        · exact Or.inl hc
        · exact Or.inr ⟨y, List.mem_cons_of_mem x hy, hpy, hfy⟩
      · rintro (hc | ⟨y, hy, hpy, hfy⟩)
        · exact Or.inl hc
        · rcases List.mem_cons.mp hy with rfl | hy'
          · exact absurd hpy hx
          · exact Or.inr ⟨y, hy', hpy, hfy⟩

/-- Membership in the unconditional insertion fold used by `select_explicit`. -/
theorem mem_foldl_insertUnique :
    ∀ (l acc : List String) (c : String),
      c ∈ l.foldl insertUnique acc ↔ c ∈ acc ∨ c ∈ l := by
  intro l
  induction l with
  | nil => intro acc c; simp
  | cons x l ih =>
    intro acc c
    rw [List.foldl_cons, ih, mem_insertUnique]
    constructor
    · rintro ((hc | hcx) | hl)
      · exact Or.inl hc
      · exact Or.inr (List.mem_cons.mpr (Or.inl hcx))
      · exact Or.inr (List.mem_cons_of_mem x hl)
    · rintro (hc | hxl)
      · exact Or.inl (Or.inl hc)
      · rcases List.mem_cons.mp hxl with rfl | hl
        · exact Or.inl (Or.inr rfl)
        · exact Or.inr hl

/-- The conditional-insert fold appends, to its accumulator, a subsequence of
the projected input list: insertion order follows input order. -/
theorem foldl_insertUnique_sublist_pred {α : Type} (p : α → Prop) [DecidablePred p]
    (f : α → String) :
    ∀ (l : List α) (acc : List String),
      ∃ s, l.foldl (fun a x => if p x then insertUnique a (f x) else a) acc = acc ++ s
        ∧ s.Sublist (l.map f) := by
  intro l
  induction l with
  | nil => intro acc; exact ⟨[], by simp, by simp⟩
  | cons x l ih =>
    intro acc
    rw [List.foldl_cons]
    by_cases hx : p x
    · rw [if_pos hx]
      by_cases hmem : acc.contains (f x)
      · have he : insertUnique acc (f x) = acc := by unfold insertUnique; rw [if_pos hmem]
        rw [he]
        obtain ⟨s, hs, hsub⟩ := ih acc
        exact ⟨s, hs, hsub.trans (List.sublist_cons_self (f x) (l.map f))⟩
      · have he : insertUnique acc (f x) = acc ++ [f x] := by unfold insertUnique; rw [if_neg hmem]
        rw [he]
        obtain ⟨s, hs, hsub⟩ := ih (acc ++ [f x])
        refine ⟨f x :: s, ?_, ?_⟩
        · rw [hs, List.append_assoc]
          rfl
        · simpa using hsub.cons₂ (f x)
    · rw [if_neg hx]
      obtain ⟨s, hs, hsub⟩ := ih acc
      exact ⟨s, hs, hsub.trans (List.sublist_cons_self (f x) (l.map f))⟩

/-- The unconditional insertion fold appends a subsequence of its input. -/
theorem foldl_insertUnique_sublist :
    ∀ (l acc : List String),
      ∃ s, l.foldl insertUnique acc = acc ++ s ∧ s.Sublist l := by
  intro l
  induction l with
  | nil => intro acc; exact ⟨[], by simp, by simp⟩
  | cons x l ih =>
    intro acc
    rw [List.foldl_cons]
    by_cases hmem : acc.contains x
    · have he : insertUnique acc x = acc := by unfold insertUnique; rw [if_pos hmem]
      rw [he]
      obtain ⟨s, hs, hsub⟩ := ih acc
      exact ⟨s, hs, hsub.trans (List.sublist_cons_self x l)⟩
    · have he : insertUnique acc x = acc ++ [x] := by unfold insertUnique; rw [if_neg hmem]
      rw [he]
      obtain ⟨s, hs, hsub⟩ := ih (acc ++ [x])
      refine ⟨x :: s, ?_, ?_⟩
      · rw [hs, List.append_assoc]
        rfl
      · simpa using hsub.cons₂ x

/-- When every member name is found among the table's columns, the emitted
satellite rows project back to the member list (one row per member, in member
order). -/
theorem satGroupRows_sourceCols (t : TableMetadata)
    (satId satName src pId pHk : String) :
    ∀ members : List String,
      (∀ c ∈ members, (t.columns.find? (fun c' => c'.column == c)).isSome) →
      (satGroupRows t satId satName src pId pHk members).map (fun r => r.getD 3 "")
        = members := by
  have aux : ∀ (members : List String) (k : Nat),
      (∀ c ∈ members, (t.columns.find? (fun c' => c'.column == c)).isSome) →
      (((members.enumFrom k).filterMap (fun p =>
          (t.columns.find? (fun c' => c'.column == p.2)).map (fun col =>
            [satId, satName, src, col.column, pId, pHk, col.column,
             toString (if col.order = 0 then p.1 + 1 else col.order),
             extractGroupName t.schema]))).map (fun r => r.getD 3 ""))
        = members := by
    intro members
    induction members with
    | nil => intro k _; rfl
    | cons c ms ih =>
      intro k h
      obtain ⟨col, hcol⟩ := Option.isSome_iff_exists.mp (h c (List.mem_cons_self c ms))
      have hcc : col.column = c := by
        have := List.find?_some hcol
        simpa using this
      rw [List.enumFrom, List.filterMap_cons]
      simp only [hcol, Option.map_some']
      rw [List.map_cons, ih (k + 1) (fun c' hc' => h c' (List.mem_cons_of_mem c hc'))]
      simp [hcc]
  intro members h
  exact aux members 0 h

/-- Per-index characterization of the emitted satellite rows when every
member is found: the `i`-th row belongs to the `i`-th member and its sort
order cell is the stored order, falling back to the 1-based position
`k + i + 1` in the member sequence. -/
theorem satGroupRows_getD (t : TableMetadata) (satId satName src pId pHk : String) :
    ∀ (members : List String) (k : Nat),
      (∀ c ∈ members, (t.columns.find? (fun c' => c'.column == c)).isSome) →
      ∀ i, i < members.length → ∃ col,
        t.columns.find? (fun c' => c'.column == members.getD i "") = some col
        ∧ ((members.enumFrom k).filterMap (fun p =>
            (t.columns.find? (fun c' => c'.column == p.2)).map (fun col =>
              [satId, satName, src, col.column, pId, pHk, col.column,
               toString (if col.order = 0 then p.1 + 1 else col.order),
               extractGroupName t.schema]))).getD i []
          = [satId, satName, src, col.column, pId, pHk, col.column,
             toString (if col.order = 0 then k + i + 1 else col.order),
             extractGroupName t.schema] := by
  intro members
  induction members with
  | nil =>
    intro k _ i hi
    exact absurd hi (by simp)
  | cons c ms ih =>
    intro k h i hi
    obtain ⟨col, hcol⟩ := Option.isSome_iff_exists.mp (h c (List.mem_cons_self c ms))
    cases i with
    | zero =>
      refine ⟨col, by simpa using hcol, ?_⟩
      rw [List.enumFrom, List.filterMap_cons]
      simp only [hcol, Option.map_some']
      rfl
    | succ j =>
      have hj : j < ms.length := by simpa using hi
      obtain ⟨col', h1, h2⟩ :=
        ih (k + 1) (fun c' hc' => h c' (List.mem_cons_of_mem c hc')) j hj
      refine ⟨col', by simpa using h1, ?_⟩
      rw [List.enumFrom, List.filterMap_cons]
      simp only [hcol, Option.map_some']
      rw [List.getD_cons_succ, h2,
        show k + 1 + j + 1 = k + (j + 1) + 1 by omega]

/-- In `select_all` mode the member set is the conditional-insert fold over
the table's columns. -/
theorem hashdiffMemberColumns_select_all (t : TableMetadata) (hd : HashdiffGroup)
    (hmode : truthyOr hd.mode "select_all" = "select_all") :
    hashdiffMemberColumns t hd
      = t.columns.foldl (fun acc col =>
          if ¬ (hd.excludedColumns.getD []).contains col.column
              ∧ ¬ (businessKeyColumnsOf t).contains col.column
              ∧ col.column ≠ recordSourceColOf t
              ∧ col.column ≠ loadDateColOf t then
            insertUnique acc col.column
          else acc) [] := by
  simp only [hashdiffMemberColumns]
  rw [if_pos hmode]

/-- In any other mode the member set is the insertion fold over the inclusion
list. -/
theorem hashdiffMemberColumns_select_explicit (t : TableMetadata) (hd : HashdiffGroup)
    (hmode : truthyOr hd.mode "select_all" ≠ "select_all") :
    hashdiffMemberColumns t hd = (hd.includedColumns.getD []).foldl insertUnique [] := by
  simp only [hashdiffMemberColumns]
  rw [if_neg hmode]

/-- C3: for a `select_all` hashdiff group, the member column set is exactly
the table's columns minus the exclusion list, minus columns of any business
key group of the table, minus the record-source column and the load-date
column; and the emitted satellite rows are exactly one per member, so a
non-key non-technical column appears iff it is not excluded. -/
theorem satellite_select_all_membership :
    ∀ (t : TableMetadata) (hd : HashdiffGroup),
      (truthyOr hd.mode "select_all" = "select_all" →
        ∀ c, c ∈ hashdiffMemberColumns t hd
          ↔ ((∃ col ∈ t.columns, col.column = c)
             ∧ c ∉ hd.excludedColumns.getD []
             ∧ c ∉ businessKeyColumnsOf t
             ∧ c ≠ recordSourceColOf t
             ∧ c ≠ loadDateColOf t))
    ∧ (truthyOr hd.mode "select_all" = "select_all" →
        ∀ satId satName src pId pHk,
          (satGroupRows t satId satName src pId pHk (hashdiffMemberColumns t hd)).map
            (fun r => r.getD 3 "") = hashdiffMemberColumns t hd) := by
  intro t hd
  have hmem : truthyOr hd.mode "select_all" = "select_all" →
      ∀ c, c ∈ hashdiffMemberColumns t hd
        ↔ ((∃ col ∈ t.columns, col.column = c)
           ∧ c ∉ hd.excludedColumns.getD []
           ∧ c ∉ businessKeyColumnsOf t
           ∧ c ≠ recordSourceColOf t
           ∧ c ≠ loadDateColOf t) := by
    intro hmode c
    rw [hashdiffMemberColumns_select_all t hd hmode]
    rw [mem_foldl_insertUnique_pred
      (fun col : ColumnMetadata =>
        ¬ (hd.excludedColumns.getD []).contains col.column
        ∧ ¬ (businessKeyColumnsOf t).contains col.column
        ∧ col.column ≠ recordSourceColOf t
        ∧ col.column ≠ loadDateColOf t)
      (fun col => col.column) t.columns [] c]
    simp only [List.not_mem_nil, false_or]
    constructor
    · rintro ⟨col, hcolmem, ⟨hex, hbk, hrs, hld⟩, rfl⟩
      exact ⟨⟨col, hcolmem, rfl⟩, by simpa using hex, by simpa using hbk, hrs, hld⟩
    · rintro ⟨⟨col, hcolmem, rfl⟩, hex, hbk, hrs, hld⟩
      exact ⟨col, hcolmem, ⟨by simpa using hex, by simpa using hbk, hrs, hld⟩, rfl⟩
  refine ⟨hmem, ?_⟩
  intro hmode satId satName src pId pHk
  apply satGroupRows_sourceCols
  intro c hc
  obtain ⟨⟨col, hcolmem, hcc⟩, -, -, -, -⟩ := (hmem hmode c).mp hc
  exact List.find?_isSome.mpr ⟨col, hcolmem, by simpa using hcc⟩

/-- Witness for C3: in `bkLeakTable`, the business key column `id` is not a
member of the `select_all` hashdiff while the payload column `x` is. -/
theorem satellite_select_all_membership_witness :
    "id" ∉ hashdiffMemberColumns bkLeakTable bkLeakHd
  ∧ "x" ∈ hashdiffMemberColumns bkLeakTable bkLeakHd
  ∧ (satGroupRows bkLeakTable "S_hd1" "hd1" "S_T7_t7" "H_t" "hk_t"
      (hashdiffMemberColumns bkLeakTable bkLeakHd)).map (fun r => r.getD 3 "")
      = hashdiffMemberColumns bkLeakTable bkLeakHd := by
  have h := (satellite_select_all_membership bkLeakTable bkLeakHd).1 (by decide)
  refine ⟨?_, ?_, ?_⟩
  · intro hmem
    have hx := (h "id").mp hmem
    exact absurd hx.2.2.1 (by decide)
  · refine (h "x").mpr ⟨⟨{ column := "x" }, by decide, rfl⟩, by decide, by decide,
      by decide, by decide⟩
  · exact (satellite_select_all_membership bkLeakTable bkLeakHd).2 (by decide)
      "S_hd1" "hd1" "S_T7_t7" "H_t" "hk_t"

/-- C4 (amended): the member sequence follows the table's column order only
in `select_all` mode; in `select_explicit` mode it follows the inclusion
list's order (first occurrences).  One row is emitted per member found among
the table's columns, and the `i`-th row's sort order cell is the found
column's stored order, falling back to the 1-based position `i + 1` in the
member sequence when the stored order is unset (`0`). -/
theorem satellite_row_order_policy :
    ∀ (t : TableMetadata) (hd : HashdiffGroup),
      (truthyOr hd.mode "select_all" = "select_all" →
        (hashdiffMemberColumns t hd).Sublist (t.columns.map (fun c => c.column)))
    ∧ (truthyOr hd.mode "select_all" ≠ "select_all" →
        (hashdiffMemberColumns t hd).Sublist (hd.includedColumns.getD []))
    ∧ (∀ satId satName src pId pHk,
        (∀ c ∈ hashdiffMemberColumns t hd,
            (t.columns.find? (fun c' => c'.column == c)).isSome) →
        (satGroupRows t satId satName src pId pHk (hashdiffMemberColumns t hd)).length
            = (hashdiffMemberColumns t hd).length
        ∧ ∀ i, i < (hashdiffMemberColumns t hd).length → ∃ col,
            t.columns.find?
                (fun c' => c'.column == (hashdiffMemberColumns t hd).getD i "")
              = some col
            ∧ (satGroupRows t satId satName src pId pHk
                  (hashdiffMemberColumns t hd)).getD i []
              = [satId, satName, src, col.column, pId, pHk, col.column,
                 toString (if col.order = 0 then i + 1 else col.order),
                 extractGroupName t.schema]) := by
  intro t hd
  refine ⟨?_, ?_, ?_⟩
  · intro hmode
    rw [hashdiffMemberColumns_select_all t hd hmode]
    obtain ⟨s, hs, hsub⟩ := foldl_insertUnique_sublist_pred
      (fun col : ColumnMetadata =>
        ¬ (hd.excludedColumns.getD []).contains col.column
        ∧ ¬ (businessKeyColumnsOf t).contains col.column
        ∧ col.column ≠ recordSourceColOf t
        ∧ col.column ≠ loadDateColOf t)
      (fun col => col.column) t.columns []
    rw [hs]
    simpa using hsub
  · intro hmode
    rw [hashdiffMemberColumns_select_explicit t hd hmode]
    obtain ⟨s, hs, hsub⟩ := foldl_insertUnique_sublist (hd.includedColumns.getD []) []
    rw [hs]
    simpa using hsub
  · intro satId satName src pId pHk hfound
    have hproj := satGroupRows_sourceCols t satId satName src pId pHk
      (hashdiffMemberColumns t hd) hfound
    constructor
    · have := congrArg List.length hproj
      simpa using this
    · intro i hi
      obtain ⟨col, h1, h2⟩ := satGroupRows_getD t satId satName src pId pHk
        (hashdiffMemberColumns t hd) 0 hfound i hi
      refine ⟨col, h1, ?_⟩
      have : (0 : Nat) + i + 1 = i + 1 := by omega
      rw [← this]
      exact h2

/-- C4 (counterexample): for `explicitOrderTable` (columns `a, b`; inclusion
list `["b", "a"]`) the emitted rows come in inclusion order `b, a` with sort
orders `1, 2`, not in the table's column order `a, b`. -/
theorem satellite_row_order_cex :
    (satProcessTables [explicitOrderTable]).map (fun p => p.1.map (fun r => r.getD 3 ""))
      = some [["b", "a"]].flatten
  ∧ (explicitOrderTable.columns.map (fun c => c.column)).filter
        (fun c => (hashdiffMemberColumns explicitOrderTable explicitOrderHd).contains c)
      = ["a", "b"]
  ∧ (satProcessTables [explicitOrderTable]).map (fun p => p.1.map (fun r => r.getD 7 ""))
      = some [["1", "2"]].flatten
  ∧ (["b", "a"] : List String) ≠ ["a", "b"] := by
  refine ⟨by decide, by decide, by decide, by decide⟩

/-- Witness for C4 (amended) at `bkLeakTable` (select_all) and
`explicitOrderHd` (select_explicit). -/
theorem satellite_row_order_policy_witness :
    (hashdiffMemberColumns bkLeakTable bkLeakHd).Sublist
        (bkLeakTable.columns.map (fun c => c.column))
  ∧ (hashdiffMemberColumns explicitOrderTable explicitOrderHd).Sublist
        (explicitOrderHd.includedColumns.getD [])
  ∧ (satGroupRows bkLeakTable "S" "n" "src" "P" "hk"
        (hashdiffMemberColumns bkLeakTable bkLeakHd)).length
      = (hashdiffMemberColumns bkLeakTable bkLeakHd).length := by
  refine ⟨?_, ?_, ?_⟩
  · exact (satellite_row_order_policy bkLeakTable bkLeakHd).1 (by decide)
  · exact (satellite_row_order_policy explicitOrderTable explicitOrderHd).2.1 (by decide)
  · exact ((satellite_row_order_policy bkLeakTable bkLeakHd).2.2 "S" "n" "src" "P" "hk"
      (by decide)).1

/-- C7 (amended): when the denormalized export succeeds, a hashdiff group's
name is listed for a column iff — in strict `select_all` mode — the column is
not in the group's exclusion list, and otherwise iff it is in the inclusion
list.  No business-key, record-source or load-date exclusion is applied, and
the concept/hashkey acceptance checks of the satellite compiler are not
consulted. -/
theorem info_schema_membership_rule :
    ∀ (hds : List HashdiffGroup) (colName : String) (names : List (Option String)),
      columnHashdiffs hds colName = some names →
      ∀ nm : Option String,
        nm ∈ names ↔ ∃ d ∈ hds, d.name = nm
          ∧ (if d.mode = some "select_all" then colName ∉ d.excludedColumns.getD []
             else colName ∈ d.includedColumns.getD []) := by
  intro hds
  induction hds with
  | nil =>
    intro colName names h nm
    have : names = [] := by
      simpa [columnHashdiffs] using h.symm
    subst this
    simp
  | cons d rest ih =>
    intro colName names h nm
    by_cases hm : d.mode = some "select_all"
    · cases hex : d.excludedColumns with
      | none =>
        exfalso
        simp [columnHashdiffs, hm, hex] at h
      | some ex =>
        cases hrest : columnHashdiffs rest colName with
        | none =>
          exfalso
          simp [columnHashdiffs, hm, hex, hrest] at h
        | some r =>
          have hnames : names = (if !ex.contains colName then d.name :: r else r) := by
            have h' := h
            simp only [columnHashdiffs, hm, if_pos, hex, hrest, Option.map_some'] at h'
            exact (Option.some_inj.mp h').symm
          subst hnames
          have hr := ih colName r hrest
          by_cases hc : ex.contains colName
          · have hc' : colName ∈ ex := by simpa using hc
            rw [if_neg (by simp [hc']), hr nm]
            constructor
            · rintro ⟨d', hd', hcond⟩
              exact ⟨d', List.mem_cons_of_mem d hd', hcond⟩
            · rintro ⟨d', hd', hname, hcond⟩
              rcases List.mem_cons.mp hd' with rfl | hd''
              · rw [if_pos hm, hex] at hcond
                exact absurd (by simpa using hc') hcond
              · exact ⟨d', hd'', hname, hcond⟩
          · have hc' : colName ∉ ex := by simpa using hc
            rw [if_pos (by simp [hc']), List.mem_cons]
            constructor
            · rintro (rfl | hmem)
              · refine ⟨d, List.mem_cons_self d rest, rfl, ?_⟩
                rw [if_pos hm, hex]
                simpa using hc'
              · obtain ⟨d', hd', hcond⟩ := (hr nm).mp hmem
                exact ⟨d', List.mem_cons_of_mem d hd', hcond⟩
            · rintro ⟨d', hd', hname, hcond⟩
              rcases List.mem_cons.mp hd' with rfl | hd''
              · exact Or.inl hname.symm
              · exact Or.inr ((hr nm).mpr ⟨d', hd'', hname, hcond⟩)
    · cases hinc : d.includedColumns with
      | none =>
        exfalso
        simp [columnHashdiffs, hm, hinc] at h
      | some inc =>
        cases hrest : columnHashdiffs rest colName with
        | none =>
          exfalso
          simp [columnHashdiffs, hm, hinc, hrest] at h
        | some r =>
          have hnames : names = (if inc.contains colName then d.name :: r else r) := by
            have h' := h
            simp only [columnHashdiffs, hm, if_neg, hinc, hrest, Option.map_some'] at h'
            exact (Option.some_inj.mp h').symm
          subst hnames
          have hr := ih colName r hrest
          by_cases hc : inc.contains colName
          · have hc' : colName ∈ inc := by simpa using hc
            rw [if_pos hc, List.mem_cons]
            constructor
            · rintro (rfl | hmem)
              · refine ⟨d, List.mem_cons_self d rest, rfl, ?_⟩
                rw [if_neg hm, hinc]
                simpa using hc'
              · obtain ⟨d', hd', hcond⟩ := (hr nm).mp hmem
                exact ⟨d', List.mem_cons_of_mem d hd', hcond⟩
            · rintro ⟨d', hd', hname, hcond⟩
              rcases List.mem_cons.mp hd' with rfl | hd''
              · exact Or.inl hname.symm
              · exact Or.inr ((hr nm).mpr ⟨d', hd'', hname, hcond⟩)
          · have hc' : colName ∉ inc := by simpa using hc
            rw [if_neg hc, hr nm]
            constructor
            · rintro ⟨d', hd', hcond⟩
              exact ⟨d', List.mem_cons_of_mem d hd', hcond⟩
            · rintro ⟨d', hd', hname, hcond⟩
              rcases List.mem_cons.mp hd' with rfl | hd''
              · rw [if_neg hm, hinc] at hcond
                exact absurd hcond (by simpa using hc')
              · exact ⟨d', hd'', hname, hcond⟩

/-- C7 (counterexample): in `bkLeakTable`, the business key column `id` is
listed under the hashdiff name `hd1` by the denormalized export, although
`id` is not a member of `hd1`'s satellite under the satellite compiler's
`select_all` membership rules — the two membership tests disagree. -/
theorem info_schema_membership_cex :
    columnHashdiffs bkLeakTable.hashdiffGroups "id" = some [some "hd1"]
  ∧ "id" ∉ hashdiffMemberColumns bkLeakTable bkLeakHd
  ∧ bkLeakTable.hashdiffGroups = [bkLeakHd]
  ∧ truthyOr bkLeakHd.mode "select_all" = "select_all" := by
  refine ⟨by decide, by decide, by decide, by decide⟩

/-- Witness for C7 (amended), instantiated at `bkLeakTable` and column `id`. -/
theorem info_schema_membership_rule_witness :
    (some "hd1" : Option String) ∈ [(some "hd1" : Option String)]
      ↔ ∃ d ∈ bkLeakTable.hashdiffGroups, d.name = some "hd1"
          ∧ (if d.mode = some "select_all" then "id" ∉ d.excludedColumns.getD []
             else "id" ∈ d.includedColumns.getD []) :=
  info_schema_membership_rule bkLeakTable.hashdiffGroups "id" [some "hd1"]
    (by decide) (some "hd1")

/-- Hashkey auto-resolution changes no field other than `hashkey`. -/
theorem resolveHashdiffHashkey_fields (t : TableMetadata) (hd : HashdiffGroup) :
    (resolveHashdiffHashkey t hd).name = hd.name
  ∧ (resolveHashdiffHashkey t hd).concept = hd.concept
  ∧ (resolveHashdiffHashkey t hd).mode = hd.mode
  ∧ (resolveHashdiffHashkey t hd).excludedColumns = hd.excludedColumns
  ∧ (resolveHashdiffHashkey t hd).includedColumns = hd.includedColumns := by
  unfold resolveHashdiffHashkey
  split
  · split <;> simp
  · simp

/-- A group whose hashkey is already truthy is not touched by resolution. -/
theorem resolveHashdiffHashkey_not_falsy (t : TableMetadata) (hd : HashdiffGroup)
    (h : falsyStr hd.hashkey = false) : resolveHashdiffHashkey t hd = hd := by
  unfold resolveHashdiffHashkey
  rw [if_neg (by simp [h])]

/-- The group returned by `processHashdiff` differs from the input at most in
its `hashkey` field, and not at all when the input hashkey was truthy. -/
theorem processHashdiff_keeps_fields (t : TableMetadata) (hd : HashdiffGroup) :
    ∀ rows hd2, processHashdiff t hd = some (rows, hd2) →
      hd2.name = hd.name ∧ hd2.concept = hd.concept ∧ hd2.mode = hd.mode
      ∧ hd2.excludedColumns = hd.excludedColumns
      ∧ hd2.includedColumns = hd.includedColumns
      ∧ (falsyStr hd.hashkey = false → hd2 = hd) := by
  intro rows hd2 h
  simp only [processHashdiff] at h
  split at h
  · have h2 : hd = hd2 := congrArg Prod.snd (Option.some.inj h)
    subst h2
    exact ⟨rfl, rfl, rfl, rfl, rfl, fun _ => rfl⟩
  · split at h
    · have h2 : resolveHashdiffHashkey t hd = hd2 := congrArg Prod.snd (Option.some.inj h)
      subst h2
      obtain ⟨f1, f2, f3, f4, f5⟩ := resolveHashdiffHashkey_fields t hd
      exact ⟨f1, f2, f3, f4, f5, fun hf => resolveHashdiffHashkey_not_falsy t hd hf⟩
    · split at h
      · have h2 : resolveHashdiffHashkey t hd = hd2 := congrArg Prod.snd (Option.some.inj h)
        subst h2
        obtain ⟨f1, f2, f3, f4, f5⟩ := resolveHashdiffHashkey_fields t hd
        exact ⟨f1, f2, f3, f4, f5, fun hf => resolveHashdiffHashkey_not_falsy t hd hf⟩
      · split at h
        · cases h
        · have h2 : resolveHashdiffHashkey t hd = hd2 := congrArg Prod.snd (Option.some.inj h)
          subst h2
          obtain ⟨f1, f2, f3, f4, f5⟩ := resolveHashdiffHashkey_fields t hd
          exact ⟨f1, f2, f3, f4, f5, fun hf => resolveHashdiffHashkey_not_falsy t hd hf⟩

/-- Group-list processing returns the input groups unchanged when every
group's hashkey is already truthy. -/
theorem processHashdiffList_preserves (t : TableMetadata) :
    ∀ (hds : List HashdiffGroup) rows hds2,
      (∀ hd ∈ hds, falsyStr hd.hashkey = false) →
      processHashdiffList t hds = some (rows, hds2) → hds2 = hds := by
  intro hds
  induction hds with
  | nil =>
    intro rows hds2 _ h
    exact (congrArg Prod.snd (Option.some.inj h)).symm
  | cons hd rest ih =>
    intro rows hds2 hall h
    unfold processHashdiffList at h
    cases hph : processHashdiff t hd with
    | none => rw [hph] at h; cases h
    | some p =>
      rw [hph] at h
      cases hpl : processHashdiffList t rest with
      | none => rw [hpl] at h; cases h
      | some q =>
        rw [hpl] at h
        have hpair := Option.some.inj h
        have hsnd : p.2 :: q.2 = hds2 := congrArg Prod.snd hpair
        have hphd : p.2 = hd :=
          (processHashdiff_keeps_fields t hd p.1 p.2 (by simpa using hph)).2.2.2.2.2
            (hall hd (List.mem_cons_self hd rest))
        have hq : q.2 = rest := ih q.1 q.2
          (fun hd' hd'mem => hall hd' (List.mem_cons_of_mem hd hd'mem)) (by simpa using hpl)
        rw [← hsnd, hphd, hq]

/-- Table-list processing returns the input tables unchanged when every
hashdiff group's hashkey is already truthy. -/
theorem satProcessTables_preserves :
    ∀ (tables : List TableMetadata) rows ts2,
      (∀ t ∈ tables, ∀ hd ∈ t.hashdiffGroups, falsyStr hd.hashkey = false) →
      satProcessTables tables = some (rows, ts2) → ts2 = tables := by
  intro tables
  induction tables with
  | nil =>
    intro rows ts2 _ h
    exact (congrArg Prod.snd (Option.some.inj h)).symm
  | cons t ts ih =>
    intro rows ts2 hall h
    unfold satProcessTables at h
    cases hrt : satRowsForTable t with
    | none => rw [hrt] at h; cases h
    | some p =>
      rw [hrt] at h
      cases hts : satProcessTables ts with
      | none => rw [hts] at h; cases h
      | some q =>
        rw [hts] at h
        have hpair := Option.some.inj h
        have hsnd : p.2 :: q.2 = ts2 := congrArg Prod.snd hpair
        have hpt : p.2 = t := by
          unfold satRowsForTable at hrt
          split at hrt
          · exact (congrArg Prod.snd (Option.some.inj hrt)).symm
          · cases hpl : processHashdiffList t t.hashdiffGroups with
            | none => rw [hpl] at hrt; cases hrt
            | some w =>
              rw [hpl] at hrt
              have hw : w.2 = t.hashdiffGroups := processHashdiffList_preserves t
                t.hashdiffGroups w.1 w.2 (hall t (List.mem_cons_self t ts))
                (by simpa using hpl)
              have hback := congrArg Prod.snd (Option.some.inj hrt)
              rw [← hback]
              show { t with hashdiffGroups := w.2 } = t
              rw [hw]
        have hq : q.2 = ts := ih q.1 q.2
          (fun t' ht' => hall t' (List.mem_cons_of_mem t ht')) (by simpa using hts)
        rw [← hsnd, hpt, hq]

/-- C8 (amended): the exporters are pure functions of their input; the only
state effect in the embedding is the satellite compiler's in-place hashkey
resolution, which can change nothing but the `hashkey` field of a hashdiff
group, and changes nothing at all when every group's hashkey is already set
to a truthy value. -/
theorem satellite_input_mutation_policy :
    (∀ (t : TableMetadata) (hd : HashdiffGroup) rows hd2,
      processHashdiff t hd = some (rows, hd2) →
        hd2.name = hd.name ∧ hd2.concept = hd.concept ∧ hd2.mode = hd.mode
        ∧ hd2.excludedColumns = hd.excludedColumns
        ∧ hd2.includedColumns = hd.includedColumns)
  ∧ (∀ (tables : List TableMetadata) (out : String) (ts2 : List TableMetadata),
      (∀ t ∈ tables, ∀ hd ∈ t.hashdiffGroups, falsyStr hd.hashkey = false) →
      exportStandardSatellite tables = some (out, ts2) → ts2 = tables) := by
  constructor
  · intro t hd rows hd2 h
    obtain ⟨f1, f2, f3, f4, f5, -⟩ := processHashdiff_keeps_fields t hd rows hd2 h
    exact ⟨f1, f2, f3, f4, f5⟩
  · intro tables out ts2 hall h
    unfold exportStandardSatellite at h
    cases hs : satProcessTables tables with
    | none => rw [hs] at h; cases h
    | some p =>
      rw [hs] at h
      have hsnd : p.2 = ts2 := congrArg Prod.snd (Option.some.inj h)
      rw [← hsnd]
      exact satProcessTables_preserves tables p.1 p.2 hall (by simpa using hs)

/-- C8 (counterexample): `exportStandardSatellite` hands back a table list
different from its input — the hashdiff group of `mutationTable` had no
hashkey and the resolved name `hk_c_h` was written into it. -/
theorem satellite_input_mutation_cex :
    (exportStandardSatellite [mutationTable]).map (fun p => p.2) = some [mutationTableAfter]
  ∧ mutationTableAfter ≠ mutationTable := by
  refine ⟨by decide, by decide⟩

/-- Witness for C8 (amended): a table whose only hashdiff group carries a
truthy hashkey passes through the satellite exporter unchanged. -/
theorem satellite_input_mutation_policy_witness :
    (exportStandardSatellite [wellFormedSatTable]).map (fun p => p.2)
      = some [wellFormedSatTable] := by
  cases hres : exportStandardSatellite [wellFormedSatTable] with
  | none => exact absurd hres (by decide)
  | some p =>
    have h2 := satellite_input_mutation_policy.2 [wellFormedSatTable] p.1 p.2
      (by decide) (by rw [hres])
    simp [h2]

/-- A hashdiff group that satisfies the naming precondition is processed
without a thrown error. -/
theorem processHashdiff_isSome (t : TableMetadata) (hd : HashdiffGroup)
    (hname : falsyStr hd.concept = false →
      falsyStr (resolveHashdiffHashkey t hd).hashkey = false →
      hashdiffMemberColumns t (resolveHashdiffHashkey t hd) ≠ [] →
      (hd.name).isSome) :
    (processHashdiff t hd).isSome := by
  by_cases hcon : falsyStr hd.concept = true
  · simp [processHashdiff, hcon]
  · by_cases hhk : falsyStr (resolveHashdiffHashkey t hd).hashkey = true
    · simp [processHashdiff, hcon, hhk]
    · by_cases hmem : hashdiffMemberColumns t (resolveHashdiffHashkey t hd) = []
      · simp [processHashdiff, hcon, hhk, hmem]
      · have h4 := hname (by simpa using hcon) (by simpa using hhk) hmem
        obtain ⟨nm, hnm⟩ := Option.isSome_iff_exists.mp h4
        have h5 : (resolveHashdiffHashkey t hd).name = some nm := by
          rw [(resolveHashdiffHashkey_fields t hd).1, hnm]
        simp [processHashdiff, hcon, hhk, hmem, h5]

/-- Group lists satisfying the naming precondition are processed without a
thrown error. -/
theorem processHashdiffList_isSome (t : TableMetadata) :
    ∀ hds : List HashdiffGroup,
      (∀ hd ∈ hds, falsyStr hd.concept = false →
        falsyStr (resolveHashdiffHashkey t hd).hashkey = false →
        hashdiffMemberColumns t (resolveHashdiffHashkey t hd) ≠ [] →
        (hd.name).isSome) →
      (processHashdiffList t hds).isSome := by
  intro hds
  induction hds with
  | nil => intro _; simp [processHashdiffList]
  | cons hd rest ih =>
    intro hall
    unfold processHashdiffList
    obtain ⟨p, hp⟩ := Option.isSome_iff_exists.mp
      (processHashdiff_isSome t hd (hall hd (List.mem_cons_self hd rest)))
    obtain ⟨q, hq⟩ := Option.isSome_iff_exists.mp
      (ih (fun hd' h' => hall hd' (List.mem_cons_of_mem hd h')))
    rw [hp, hq]
    simp

/-- C10: the satellite exporter throws on a group that has a concept, a
resolvable hashkey, and a nonempty member set but no `name` (see
`missingNameTable`); under the precondition that every such group carries a
name, the exporter is total. -/
theorem satellite_name_totality :
    exportStandardSatellite [missingNameTable] = none
  ∧ (∀ tables : List TableMetadata,
      (∀ t ∈ tables, ∀ hd ∈ t.hashdiffGroups,
        falsyStr hd.concept = false →
        falsyStr (resolveHashdiffHashkey t hd).hashkey = false →
        hashdiffMemberColumns t (resolveHashdiffHashkey t hd) ≠ [] →
        (hd.name).isSome) →
      (exportStandardSatellite tables).isSome) := by
  constructor
  · decide
  · intro tables hall
    have hs : (satProcessTables tables).isSome := by
      induction tables with
      | nil => simp [satProcessTables]
      | cons t ts ih =>
        unfold satProcessTables
        have ht : (satRowsForTable t).isSome := by
          unfold satRowsForTable
          split
          · simp
          · obtain ⟨w, hw⟩ := Option.isSome_iff_exists.mp
              (processHashdiffList_isSome t t.hashdiffGroups
                (hall t (List.mem_cons_self t ts)))
            rw [hw]
            simp
        obtain ⟨p, hp⟩ := Option.isSome_iff_exists.mp ht
        obtain ⟨q, hq⟩ := Option.isSome_iff_exists.mp
          (ih (fun t' h' => hall t' (List.mem_cons_of_mem t h')))
        rw [hp, hq]
        simp
    obtain ⟨p, hp⟩ := Option.isSome_iff_exists.mp hs
    unfold exportStandardSatellite
    rw [hp]
    simp

/-- Witness for C10: a well-formed input is exported without error. -/
theorem satellite_name_totality_witness :
    (exportStandardSatellite [wellFormedSatTable]).isSome :=
  satellite_name_totality.2 [wellFormedSatTable] (by decide)
